import Mathlib

/-!
Verification of the MedStats-PRO record classification and aggregation
engine (`src/utils/dataProcessor.ts`) and its date-range resolver
(`src/App.tsx`, `dateRange`).

The TypeScript source is shallowly embedded: every function below is a
direct transcription of the corresponding source function, with JavaScript
string primitives (`trim`, `toUpperCase`, `includes`, `String.prototype.normalize("NFD")`,
`split`, `Array.prototype.sort`, `Date` parsing) modelled explicitly as
executable Lean functions on `List Char` / `String`.
-/

namespace MedStats

/-- ECMAScript whitespace (the `\s` character class and the characters
stripped by `String.prototype.trim`): tab, LF, VT, FF, CR, space, NBSP,
Ogham space mark, the U+2000–U+200A range, line/paragraph separators,
narrow NBSP, medium mathematical space, ideographic space, and BOM. -/
def isJSWS (c : Char) : Bool :=
  c == ' ' || c == '\t' || c == '\n' || c.toNat == 0x0B || c.toNat == 0x0C ||
  c == '\r' || c.toNat == 0xA0 || c.toNat == 0x1680 ||
  (0x2000 ≤ c.toNat && c.toNat ≤ 0x200A) ||
  c.toNat == 0x2028 || c.toNat == 0x2029 || c.toNat == 0x202F ||
  c.toNat == 0x205F || c.toNat == 0x3000 || c.toNat == 0xFEFF

/-- JavaScript `s || d` on strings: the empty string is falsy. -/
def jsOrElse (s d : String) : String :=
  if s = "" then d else s

/-- `String.prototype.trim` on a character list: drop ECMAScript whitespace
from both ends. -/
def trimL (l : List Char) : List Char :=
  (((l.dropWhile isJSWS).reverse.dropWhile isJSWS)).reverse

/-- `String.prototype.trim`. -/
def jsTrim (s : String) : String :=
  String.mk (trimL s.data)

/-- `String.prototype.toUpperCase`, per character: the ASCII range `a`–`z`
maps to `A`–`Z`; every other character is left unchanged (the characters
this program upper-cases are ASCII once diacritics are decomposed and
stripped). -/
def jsUpperChar (c : Char) : Char :=
  if 'a' ≤ c ∧ c ≤ 'z' then Char.ofNat (c.toNat - 32) else c

/-- `String.prototype.toUpperCase`. -/
def jsToUpper (s : String) : String :=
  String.mk (s.data.map jsUpperChar)

/-- `needle` is a prefix of `hay` (character lists). -/
def startsL : List Char → List Char → Bool
  | [], _ => true
  | _ :: _, [] => false
  | a :: as, b :: bs => a == b && startsL as bs

/-- `needle` occurs as a contiguous substring of `hay` (character lists). -/
def substrL (needle hay : List Char) : Bool :=
  startsL needle hay ||
    match hay with
    | [] => false
    | _ :: t => substrL needle t

/-- `String.prototype.includes`: `pat` occurs as a substring of `s`. -/
def jsIncludes (s pat : String) : Bool :=
  substrL pat.data s.data

/-- Canonical decomposition table for `String.prototype.normalize("NFD")`,
modelled for the Latin-1 accented letters (the character repertoire this
program's Spanish clinical text exercises): each precomposed letter maps to
its base letter followed by its combining mark (U+0300 grave, U+0301 acute,
U+0302 circumflex, U+0303 tilde, U+0308 diaeresis, U+030A ring, U+0327
cedilla). Every key is ≥ U+00C0; every decomposition is a base ASCII letter
followed by a combining mark in U+0300–U+036F. -/
def nfdTable : List (Char × List Char) :=
  [ ('à', ['a', '̀']), ('á', ['a', '́']), ('â', ['a', '̂']),
    ('ã', ['a', '̃']), ('ä', ['a', '̈']), ('å', ['a', '̊']),
    ('è', ['e', '̀']), ('é', ['e', '́']), ('ê', ['e', '̂']),
    ('ë', ['e', '̈']),
    ('ì', ['i', '̀']), ('í', ['i', '́']), ('î', ['i', '̂']),
    ('ï', ['i', '̈']),
    ('ò', ['o', '̀']), ('ó', ['o', '́']), ('ô', ['o', '̂']),
    ('õ', ['o', '̃']), ('ö', ['o', '̈']),
    ('ù', ['u', '̀']), ('ú', ['u', '́']), ('û', ['u', '̂']),
    ('ü', ['u', '̈']),
    ('ý', ['y', '́']), ('ÿ', ['y', '̈']),
    ('ñ', ['n', '̃']), ('ç', ['c', '̧']),
    ('À', ['A', '̀']), ('Á', ['A', '́']), ('Â', ['A', '̂']),
    ('Ã', ['A', '̃']), ('Ä', ['A', '̈']), ('Å', ['A', '̊']),
    ('È', ['E', '̀']), ('É', ['E', '́']), ('Ê', ['E', '̂']),
    ('Ë', ['E', '̈']),
    ('Ì', ['I', '̀']), ('Í', ['I', '́']), ('Î', ['I', '̂']),
    ('Ï', ['I', '̈']),
    ('Ò', ['O', '̀']), ('Ó', ['O', '́']), ('Ô', ['O', '̂']),
    ('Õ', ['O', '̃']), ('Ö', ['O', '̈']),
    ('Ù', ['U', '̀']), ('Ú', ['U', '́']), ('Û', ['U', '̂']),
    ('Ü', ['U', '̈']),
    ('Ý', ['Y', '́']),
    ('Ñ', ['N', '̃']), ('Ç', ['C', '̧']) ]

/-- NFD decomposition of one character: table lookup, identity elsewhere. -/
def charNFD (c : Char) : List Char :=
  match nfdTable.find? (fun e => e.1 == c) with
  | some e => e.2
  | none => [c]

/-- A combining diacritical mark, the range removed by the source's
`replace(/[̀-ͯ]/g, "")`. -/
def combining (c : Char) : Bool :=
  0x300 ≤ c.toNat && c.toNat ≤ 0x36F

/-- The punctuation class of the source's `replace(/[().,;:-]/g, ' ')`. -/
def isPunctNorm (c : Char) : Bool :=
  c == '(' || c == ')' || c == '.' || c == ',' || c == ';' || c == ':' || c == '-'

/-- Replace one punctuation character with a space, as the source's
punctuation regex does. -/
def punctToSpace (c : Char) : Char :=
  if isPunctNorm c then ' ' else c

/-- A character left unchanged by every per-character stage of `normalize`:
NFD-fixed, not a combining mark, upper-case-fixed and not in the
punctuation class. Every character the normalization pipeline emits is of
this kind. -/
def goodChar (c : Char) : Bool :=
  (charNFD c == [c]) && !combining c && (jsUpperChar c == c) && !isPunctNorm c

/-- `replace(/\s+/g, ' ')`: collapse every maximal run of ECMAScript
whitespace to a single space. -/
def collapseWS : List Char → List Char
  | [] => []
  | [c] => [if isJSWS c then ' ' else c]
  | a :: b :: rest =>
    if isJSWS a ∧ isJSWS b then collapseWS (b :: rest)
    else (if isJSWS a then ' ' else a) :: collapseWS (b :: rest)

/-- `normalize` from `src/utils/dataProcessor.ts`: NFD-decompose, strip
combining marks, upper-case, replace `( ) . , ; : -` with spaces, collapse
whitespace runs to one space, and trim. -/
def normalize (str : String) : String :=
  String.mk (trimL (collapseWS
    ((((str.data.flatMap charNFD).filter (fun c => !combining c)).map
        jsUpperChar).map punctToSpace)))

/-- The `subcategory` union type of `RadiologyRecord` in `src/types.ts`. -/
inductive Subcat where
  | CONTRASTADOS
  | ESPECIALES
  | STANDARD
deriving DecidableEq, Repr

/-- The string name of a subcategory (the key used in the summary's
`subcategories` object). -/
def subcatName : Subcat → String
  | .CONTRASTADOS => "CONTRASTADOS"
  | .ESPECIALES => "ESPECIALES"
  | .STANDARD => "STANDARD"

/-- `RadiologyRecord` from `src/types.ts`. String fields; the computed
`subcategory` field is the three-valued union type. -/
structure RadiologyRecord where
  id_paciente : String := ""
  nombre_paciente : String := ""
  descripcion : String := ""
  region : String := ""
  fecha_realizado : String := ""
  modalidad : String := ""
  realizado_por : String := ""
  estado_reporte : String := ""
  fecha_reporte : String := ""
  subcategory : Subcat := .STANDARD
deriving DecidableEq, Repr

/-- `classifyRecord` from `src/utils/dataProcessor.ts`. The two procedure
reference lists are imported there from `src/constants.ts`, a module not
present in the sources; they are therefore taken as parameters, and every
theorem below holds for all values of the lists. -/
def classifyRecord (CONTRASTADOS_PROCEDURES ESPECIALES_PROCEDURES : List String)
    (record : RadiologyRecord) : RadiologyRecord :=
  let rawDesc := jsOrElse record.descripcion ""
  let descNormalized := normalize rawDesc
  let mod := jsTrim (jsToUpper (jsOrElse record.modalidad ""))
  let hasContrastKeywords :=
    jsIncludes descNormalized "CONTRASTE" || jsIncludes descNormalized "CONTRASTADO"
  let subcategory : Subcat :=
    if hasContrastKeywords then .CONTRASTADOS
    else if mod = "CT" then
      if CONTRASTADOS_PROCEDURES.any (fun p => jsIncludes descNormalized (normalize p)) then
        .CONTRASTADOS
      else .STANDARD
    else if mod = "CR" then
      if ESPECIALES_PROCEDURES.any (fun p => jsIncludes descNormalized (normalize p)) then
        .ESPECIALES
      else .STANDARD
    else .STANDARD
  { record with subcategory := subcategory }

/-- `SummaryBySpecialist` from `src/types.ts`. The two `Record<string,
number>` objects are modelled as insertion-ordered association lists, the
enumeration order `Object.entries`/`Object.values` exposes. -/
structure SummaryBySpecialist where
  specialist : String
  totalStudies : Nat
  modalities : List (String × Nat)
  subcategories : List (String × Nat)
deriving DecidableEq, Repr

/-- The grouping key of `getSummaryBySpecialist`:
`(curr.realizado_por || 'SIN ASIGNAR').trim()`. -/
def specKey (r : RadiologyRecord) : String :=
  jsTrim (jsOrElse r.realizado_por "SIN ASIGNAR")

/-- The modality key of `getSummaryBySpecialist`:
`(curr.modalidad || 'N/A').trim().toUpperCase()`. -/
def modalityKey (r : RadiologyRecord) : String :=
  jsToUpper (jsTrim (jsOrElse r.modalidad "N/A"))

/-- The fresh accumulator entry `getSummaryBySpecialist` creates for a
specialist seen for the first time. -/
def emptySummary (spec : String) : SummaryBySpecialist :=
  { specialist := spec
    totalStudies := 0
    modalities := []
    subcategories := [("CONTRASTADOS", 0), ("ESPECIALES", 0), ("STANDARD", 0)] }

/-- `acc[k] = (acc[k] || 0) + 1` on an insertion-ordered object: increment
an existing key in place, or append the new key with count 1. -/
def bumpKey : List (String × Nat) → String → List (String × Nat)
  | [], k => [(k, 1)]
  | (k', v) :: t, k => if k' = k then (k', v + 1) :: t else (k', v) :: bumpKey t k

/-- `acc[k]++` on an object whose key is already present (the subcategory
object is created with all three keys): increment the matching entry. -/
def incKey (m : List (String × Nat)) (k : String) : List (String × Nat) :=
  m.map (fun e => if e.1 = k then (e.1, e.2 + 1) else e)

/-- One step of the `reduce` in `getSummaryBySpecialist`: ensure the
specialist's bucket exists (appended in first-seen order), then increment
its total, its modality count and its subcategory count. -/
def summarizeStep (acc : List SummaryBySpecialist) (curr : RadiologyRecord) :
    List SummaryBySpecialist :=
  let spec := specKey curr
  let acc' := if acc.any (fun s => s.specialist == spec) then acc
              else acc ++ [emptySummary spec]
  acc'.map (fun s =>
    if s.specialist = spec then
      { s with
        totalStudies := s.totalStudies + 1
        modalities := bumpKey s.modalities (modalityKey curr)
        subcategories := incKey s.subcategories (subcatName curr.subcategory) }
    else s)

/-- The grouped accumulator of `getSummaryBySpecialist` (`Object.values` of
the `reduce` result, in property insertion order). -/
def specGroups (data : List RadiologyRecord) : List SummaryBySpecialist :=
  data.foldl summarizeStep []

/-- One insertion step of `Array.prototype.sort` with comparator `c`
(negative means the inserted element sorts strictly before): the element is
placed before the first element it strictly precedes, hence after every
element comparing equal to it — the stable order ES2019 requires. -/
def insertCmp {α : Type} (c : α → α → Int) (x : α) : List α → List α
  | [] => [x]
  | y :: ys => if c x y < 0 then x :: y :: ys else y :: insertCmp c x ys

/-- `Array.prototype.sort` with comparator `c`, as a stable sort. -/
def sortCmp {α : Type} (c : α → α → Int) (l : List α) : List α :=
  l.foldl (fun acc x => insertCmp c x acc) []

/-- The comparator `(a, b) => b.totalStudies - a.totalStudies`. -/
def cmpTotal (a b : SummaryBySpecialist) : Int :=
  (b.totalStudies : Int) - (a.totalStudies : Int)

/-- The numeric value of a digit string. -/
def digitsToNat (l : List Char) : Nat :=
  l.foldl (fun a c => a * 10 + (c.toNat - 48)) 0

/-- An ECMAScript array-index property key: the canonical decimal string of
an integer in [0, 2^32 − 2] — non-empty, all digits, no leading zero
unless the string is "0", value below 4294967295. -/
def isArrayIndex (s : String) : Bool :=
  match s.data with
  | [] => false
  | c :: cs =>
    (c :: cs).all (fun d => '0' ≤ d && d ≤ '9') &&
    (!(c == '0') || cs.isEmpty) &&
    digitsToNat (c :: cs) < 4294967295

/-- `Object.values` enumeration order, per ECMAScript
`OrdinaryOwnPropertyKeys`: array-index-like keys first in ascending
numeric order, then the remaining string keys in property insertion
order. -/
def objectValues (buckets : List SummaryBySpecialist) : List SummaryBySpecialist :=
  sortCmp (fun a b =>
      (digitsToNat a.specialist.data : Int) - (digitsToNat b.specialist.data : Int))
    (buckets.filter (fun s => isArrayIndex s.specialist)) ++
  buckets.filter (fun s => !isArrayIndex s.specialist)

/-- `getSummaryBySpecialist` from `src/utils/dataProcessor.ts`:
`Object.values` of the grouped accumulator, sorted by the
total-studies comparator. -/
def getSummaryBySpecialist (data : List RadiologyRecord) : List SummaryBySpecialist :=
  sortCmp cmpTotal (objectValues (specGroups data))

/-- The per-specialist bucket keys in first-seen order, for stating the
aggregator's ordering guarantee. -/
def firstSeenSpecs (data : List RadiologyRecord) : List String :=
  data.foldl (fun ks r => if specKey r ∈ ks then ks else ks ++ [specKey r]) []

/-- The result type of the `dateRange` memo in `src/App.tsx`. -/
structure DateRange where
  min : String
  max : String
deriving DecidableEq, Repr

/-- `s.split(/[\/\-]/)` on a character list: split at every `/` or `-`,
keeping empty fields, always yielding one more field than separators. -/
def splitSepsL : List Char → List (List Char)
  | [] => [[]]
  | c :: t =>
    if c = '/' ∨ c = '-' then [] :: splitSepsL t
    else
      match splitSepsL t with
      | h :: r => (c :: h) :: r
      | [] => [[c]]

/-- `s.split(/[\/\-]/)`. -/
def splitSeps (s : String) : List String :=
  (splitSepsL s.data).map String.mk

/-- Proleptic-Gregorian leap year. -/
def isLeap (y : Int) : Bool :=
  y % 4 == 0 && (y % 100 != 0 || y % 400 == 0)

/-- Days in a month of the proleptic Gregorian calendar. -/
def daysInMonth (y m : Int) : Int :=
  if m = 2 then (if isLeap y then 29 else 28)
  else if m = 4 ∨ m = 6 ∨ m = 9 ∨ m = 11 then 30
  else 31

/-- Days from 1970-01-01 to the civil date `y-m-d` (the standard
days-from-civil computation over the proleptic Gregorian calendar). -/
def daysFromCivil (y m d : Int) : Int :=
  let y' := if m ≤ 2 then y - 1 else y
  let era := (if 0 ≤ y' then y' else y' - 399) / 400
  let yoe := y' - era * 400
  let doy := (153 * (if 2 < m then m - 3 else m + 9) + 2) / 5 + d - 1
  let doe := yoe * 365 + yoe / 4 - yoe / 100 + doy
  era * 146097 + doe - 719468

/-- A decimal digit's value, `none` otherwise. -/
def digitVal (c : Char) : Option Nat :=
  if '0' ≤ c ∧ c ≤ '9' then some (c.toNat - 48) else none

/-- Modelled from ECMAScript `Date` parsing (`new Date(string).getTime()`):
the date-only ISO form `YYYY-MM-DD` — the only string shape whose parsing
the ECMAScript specification mandates — is interpreted as UTC midnight and
yields milliseconds since the epoch; a string of any other shape, or one
whose fields do not form a valid calendar date, yields an invalid instant
(`NaN`), modelled as `none`. -/
def jsDateParse (s : String) : Option Int :=
  match s.data with
  | [y1, y2, y3, y4, s1, m1, m2, s2, d1, d2] =>
    if s1 = '-' ∧ s2 = '-' then
      match digitVal y1, digitVal y2, digitVal y3, digitVal y4,
            digitVal m1, digitVal m2, digitVal d1, digitVal d2 with
      | some a, some b, some c, some d, some e, some f, some g, some h =>
        let y : Int := (a * 1000 + b * 100 + c * 10 + d : Nat)
        let m : Int := (e * 10 + f : Nat)
        let dd : Int := (g * 10 + h : Nat)
        if 1 ≤ m ∧ m ≤ 12 ∧ 1 ≤ dd ∧ dd ≤ daysInMonth y m then
          some (daysFromCivil y m dd * 86400000)
        else none
      | _, _, _, _, _, _, _, _ => none
    else none
  | _ => none

/-- The `parseDate` closure inside `dateRange` in `src/App.tsx`: split on
`/` or `-`; a three-part shape whose first part has 2 characters and last
part has 4 is reassembled as `YYYY-MM-DD` before parsing; anything else is
handed to `Date` parsing directly. -/
def parseDate (s : String) : Option Int :=
  let parts := splitSeps s
  if parts.length = 3 then
    if (parts.getD 0 "").length = 2 ∧ (parts.getD 2 "").length = 4 then
      jsDateParse ((parts.getD 2 "") ++ "-" ++ (parts.getD 1 "") ++ "-" ++ (parts.getD 0 ""))
    else jsDateParse s
  else jsDateParse s

/-- The effective comparison the sort in `dateRange` performs:
`parseDate(a) - parseDate(b)`, with a `NaN` comparator result treated as
`+0` as ECMAScript `SortCompare` prescribes — so any pair involving an
unparsable date compares equal. -/
def dateCmp (a b : String) : Int :=
  match parseDate a, parseDate b with
  | some x, some y => x - y
  | _, _ => 0

/-- The `dateRange` memo from `src/App.tsx` (lines 133–162): empty-string
sentinels for an empty collection, `N/A` sentinels when no record carries a
non-blank date, otherwise the first and last elements of the stably sorted
raw date strings. -/
def dateRange (filteredData : List RadiologyRecord) : DateRange :=
  if filteredData.length = 0 then { min := "", max := "" }
  else
    let validDates := (filteredData.map (fun d => d.fecha_realizado)).filter
      (fun f => !(f == "") && !(jsTrim f == ""))
    if validDates.length = 0 then { min := "N/A", max := "N/A" }
    else
      let sorted := sortCmp dateCmp validDates
      { min := sorted.headD "", max := sorted.getLastD "" }

/-- The aggregator-ordering scenario of the spec: specialists A (2
studies), B (5 studies), C (5 studies), in that input order. -/
def abcExample : List RadiologyRecord :=
  [ { realizado_por := "A" }, { realizado_por := "A" },
    { realizado_por := "B" }, { realizado_por := "B" }, { realizado_por := "B" },
    { realizado_por := "B" }, { realizado_por := "B" },
    { realizado_por := "C" }, { realizado_por := "C" }, { realizado_por := "C" },
    { realizado_por := "C" }, { realizado_por := "C" } ]

/-- The date-ordering scenario of the spec: three records carrying the
date strings 15/03/2024, 2024-01-10 and 20/02/2024. -/
def dateExample : List RadiologyRecord :=
  [ { fecha_realizado := "15/03/2024" },
    { fecha_realizado := "2024-01-10" },
    { fecha_realizado := "20/02/2024" } ]

/-- `s || ''` is the identity on strings. -/
lemma jsOrElse_empty (s : String) : jsOrElse s "" = s := by
  unfold jsOrElse
  split <;> simp_all

/-- A one-bucket object enumerates as that bucket alone. -/
lemma objectValues_singleton (s : SummaryBySpecialist) : objectValues [s] = [s] := by
  unfold objectValues
  by_cases h : isArrayIndex s.specialist = true
  · simp [h, sortCmp, insertCmp]
  · simp [h, sortCmp]

/-- When no bucket key is array-index-like, `Object.values` order is plain
insertion order. -/
lemma objectValues_id_of_no_index (l : List SummaryBySpecialist)
    (h : ∀ s ∈ l, isArrayIndex s.specialist = false) : objectValues l = l := by
  unfold objectValues
  rw [List.filter_eq_nil_iff.mpr (fun s hs => by rw [h s hs]; exact Bool.false_ne_true),
    List.filter_eq_self.mpr (fun s hs => by rw [h s hs]; rfl)]
  rfl

/-- A singleton input produces a single summary whose fields are the
fresh-bucket fields after one increment. -/
lemma getSummary_singleton (r : RadiologyRecord) :
    getSummaryBySpecialist [r] =
      [{ specialist := specKey r
         totalStudies := 1
         modalities := [(modalityKey r, 1)]
         subcategories :=
           incKey [("CONTRASTADOS", 0), ("ESPECIALES", 0), ("STANDARD", 0)]
             (subcatName r.subcategory) }] := by
  have hg : specGroups [r] =
      [{ specialist := specKey r
         totalStudies := 1
         modalities := [(modalityKey r, 1)]
         subcategories :=
           incKey [("CONTRASTADOS", 0), ("ESPECIALES", 0), ("STANDARD", 0)]
             (subcatName r.subcategory) }] := by
    simp [specGroups, summarizeStep, bumpKey, emptySummary]
  rw [getSummaryBySpecialist, hg, objectValues_singleton]
  rfl

example : normalize "Tórax (Contraste)" = "TORAX CONTRASTE" := by decide

example :
    dateRange dateExample = { min := "2024-01-10", max := "15/03/2024" } := by decide

example : jsIncludes (normalize "TAC abdomen con contraste") "CONTRASTE" = true := by decide

example :
    (classifyRecord [] [] { descripcion := "US doppler con contraste", modalidad := "US" }).subcategory
      = .CONTRASTADOS := by decide

lemma insertCmp_perm {α : Type} (c : α → α → Int) (x : α) (l : List α) :
    (insertCmp c x l).Perm (x :: l) := by
  induction l with
  | nil => exact List.Perm.refl _
  | cons y ys ih =>
    unfold insertCmp
    split
    · exact List.Perm.refl _
    · exact (ih.cons y).trans (List.Perm.swap x y ys)

lemma foldl_insertCmp_perm {α : Type} (c : α → α → Int) :
    ∀ (l acc : List α),
      (l.foldl (fun a x => insertCmp c x a) acc).Perm (acc ++ l) := by
  intro l
  induction l with
  | nil => intro acc; simp
  | cons x t ih =>
    intro acc
    exact (ih (insertCmp c x acc)).trans
      (((insertCmp_perm c x acc).append_right t).trans List.perm_middle.symm)

lemma sortCmp_perm {α : Type} (c : α → α → Int) (l : List α) :
    (sortCmp c l).Perm l := by
  simpa using foldl_insertCmp_perm c l []

/-- The `Object.values` enumeration is a permutation of the buckets. -/
lemma objectValues_perm (l : List SummaryBySpecialist) : (objectValues l).Perm l := by
  unfold objectValues
  exact ((sortCmp_perm _ _).append_right _).trans
    (List.filter_append_perm (fun s => isArrayIndex s.specialist) l)

lemma summarizeStep_shape (acc : List SummaryBySpecialist) (r : RadiologyRecord)
    (h : ∀ s ∈ acc, ∃ a b c : Nat,
      s.subcategories = [("CONTRASTADOS", a), ("ESPECIALES", b), ("STANDARD", c)] ∧
      a + b + c = s.totalStudies) :
    ∀ s ∈ summarizeStep acc r, ∃ a b c : Nat,
      s.subcategories = [("CONTRASTADOS", a), ("ESPECIALES", b), ("STANDARD", c)] ∧
      a + b + c = s.totalStudies := by
  intro s hs
  unfold summarizeStep at hs
  rcases List.mem_map.mp hs with ⟨t, ht, rfl⟩
  have hP : ∃ a b c : Nat,
      t.subcategories = [("CONTRASTADOS", a), ("ESPECIALES", b), ("STANDARD", c)] ∧
      a + b + c = t.totalStudies := by
    rcases (by
      by_cases hany : acc.any (fun s => s.specialist == specKey r) = true
      · rw [if_pos hany] at ht
        exact Or.inl ht
      · rw [if_neg hany] at ht
        rcases List.mem_append.mp ht with h1 | h1
        · exact Or.inl h1
        · exact Or.inr (List.mem_singleton.mp h1) :
        t ∈ acc ∨ t = emptySummary (specKey r)) with h1 | rfl
    · exact h t h1
    · exact ⟨0, 0, 0, rfl, rfl⟩
  rcases hP with ⟨a, b, c, hsub, hsum⟩
  by_cases hspec : t.specialist = specKey r
  · rw [if_pos hspec]
    simp only
    rw [hsub]
    cases hsc : r.subcategory
    · exact ⟨a + 1, b, c, by simp [incKey, subcatName], by omega⟩
    · exact ⟨a, b + 1, c, by simp [incKey, subcatName], by omega⟩
    · exact ⟨a, b, c + 1, by simp [incKey, subcatName], by omega⟩
  · rw [if_neg hspec]
    exact ⟨a, b, c, hsub, hsum⟩

lemma foldl_summarize_shape (data : List RadiologyRecord) :
    ∀ acc : List SummaryBySpecialist,
      (∀ s ∈ acc, ∃ a b c : Nat,
        s.subcategories = [("CONTRASTADOS", a), ("ESPECIALES", b), ("STANDARD", c)] ∧
        a + b + c = s.totalStudies) →
      ∀ s ∈ data.foldl summarizeStep acc, ∃ a b c : Nat,
        s.subcategories = [("CONTRASTADOS", a), ("ESPECIALES", b), ("STANDARD", c)] ∧
        a + b + c = s.totalStudies := by
  induction data with
  | nil => intro acc h; exact h
  | cons r t ih =>
    intro acc h
    exact ih (summarizeStep acc r) (summarizeStep_shape acc r h)

lemma insertCmp_pairwise (x : SummaryBySpecialist) (l : List SummaryBySpecialist)
    (h : l.Pairwise (fun a b => b.totalStudies ≤ a.totalStudies)) :
    (insertCmp cmpTotal x l).Pairwise (fun a b => b.totalStudies ≤ a.totalStudies) := by
  induction l with
  | nil => simp [insertCmp]
  | cons y ys ih =>
    obtain ⟨hy, hys⟩ := List.pairwise_cons.mp h
    unfold insertCmp
    by_cases hc : cmpTotal x y < 0
    · rw [if_pos hc]
      have hyx : y.totalStudies ≤ x.totalStudies := by
        unfold cmpTotal at hc
        omega
      refine List.pairwise_cons.mpr ⟨?_, h⟩
      intro z hz
      rcases List.mem_cons.mp hz with rfl | hz'
      · exact hyx
      · exact le_trans (hy z hz') hyx
    · rw [if_neg hc]
      have hxy : x.totalStudies ≤ y.totalStudies := by
        unfold cmpTotal at hc
        omega
      refine List.pairwise_cons.mpr ⟨?_, ih hys⟩
      intro z hz
      rcases List.mem_cons.mp ((insertCmp_perm cmpTotal x ys).subset hz) with rfl | hz'
      · exact hxy
      · exact hy z hz'

lemma insertCmp_filter (x : SummaryBySpecialist) (l : List SummaryBySpecialist)
    (t : Nat) (h : l.Pairwise (fun a b => b.totalStudies ≤ a.totalStudies)) :
    (insertCmp cmpTotal x l).filter (fun s => s.totalStudies == t) =
      l.filter (fun s => s.totalStudies == t) ++
        (if x.totalStudies = t then [x] else []) := by
  induction l with
  | nil =>
    by_cases hx : x.totalStudies = t <;> simp [insertCmp, hx]
  | cons y ys ih =>
    obtain ⟨hy, hys⟩ := List.pairwise_cons.mp h
    unfold insertCmp
    by_cases hc : cmpTotal x y < 0
    · rw [if_pos hc]
      have hlt : y.totalStudies < x.totalStudies := by
        unfold cmpTotal at hc
        omega
      by_cases hx : x.totalStudies = t
      · have hnil : (y :: ys).filter (fun s => s.totalStudies == t) = [] := by
          rw [List.filter_eq_nil_iff]
          intro z hz
          have hzle : z.totalStudies ≤ y.totalStudies := by
            rcases List.mem_cons.mp hz with rfl | hz'
            · exact le_refl _
            · exact hy z hz'
          simp only [beq_iff_eq]
          omega
        rw [hnil, List.filter_cons]
        simp [hx, hnil]
      · rw [List.filter_cons, if_neg (by simpa using hx)]
        simp [hx]
    · rw [if_neg hc]
      rw [List.filter_cons, List.filter_cons, ih hys]
      by_cases hyt : y.totalStudies = t <;> simp [hyt]

lemma sortCmp_aux :
    ∀ (l acc : List SummaryBySpecialist),
      acc.Pairwise (fun a b => b.totalStudies ≤ a.totalStudies) →
      (l.foldl (fun a x => insertCmp cmpTotal x a) acc).Pairwise
          (fun a b => b.totalStudies ≤ a.totalStudies) ∧
        ∀ t : Nat,
          (l.foldl (fun a x => insertCmp cmpTotal x a) acc).filter
              (fun s => s.totalStudies == t) =
            acc.filter (fun s => s.totalStudies == t) ++
              l.filter (fun s => s.totalStudies == t) := by
  intro l
  induction l with
  | nil =>
    intro acc h
    exact ⟨h, fun t => by simp⟩
  | cons x xs ih =>
    intro acc h
    obtain ⟨hp, hf⟩ := ih (insertCmp cmpTotal x acc) (insertCmp_pairwise x acc h)
    refine ⟨hp, fun t => ?_⟩
    have : ((x :: xs).foldl (fun a x => insertCmp cmpTotal x a) acc) =
        xs.foldl (fun a x => insertCmp cmpTotal x a) (insertCmp cmpTotal x acc) := rfl
    rw [this, hf t, insertCmp_filter x acc t h, List.filter_cons]
    by_cases hx : x.totalStudies = t <;> simp [hx]

lemma summarizeStep_map_spec (acc : List SummaryBySpecialist) (r : RadiologyRecord) :
    (summarizeStep acc r).map (fun s => s.specialist) =
      if specKey r ∈ acc.map (fun s => s.specialist) then
        acc.map (fun s => s.specialist)
      else acc.map (fun s => s.specialist) ++ [specKey r] := by
  have hmm : (acc.any fun s => s.specialist == specKey r) = true ↔
      specKey r ∈ acc.map (fun s => s.specialist) := by
    rw [List.any_eq_true]
    constructor
    · rintro ⟨s, hs, hbeq⟩
      exact List.mem_map.mpr ⟨s, hs, beq_iff_eq.mp hbeq⟩
    · intro hmem
      rcases List.mem_map.mp hmem with ⟨s, hs, heq⟩
      exact ⟨s, hs, beq_iff_eq.mpr heq⟩
  simp only [summarizeStep]
  by_cases hany : (acc.any fun s => s.specialist == specKey r) = true
  · rw [if_pos hany, if_pos (hmm.mp hany), List.map_map]
    refine List.map_congr_left ?_
    intro s _
    dsimp only [Function.comp]
    split <;> rfl
  · rw [if_neg hany, if_neg (fun hmem => hany (hmm.mpr hmem)),
      List.map_append, List.map_append, List.map_map, List.map_map]
    congr 1
    · refine List.map_congr_left ?_
      intro s _
      dsimp only [Function.comp]
      split <;> rfl
    · simp [emptySummary]

lemma groups_map_spec :
    ∀ (data : List RadiologyRecord) (acc : List SummaryBySpecialist),
      (data.foldl summarizeStep acc).map (fun s => s.specialist) =
        data.foldl (fun ks r => if specKey r ∈ ks then ks else ks ++ [specKey r])
          (acc.map (fun s => s.specialist)) := by
  intro data
  induction data with
  | nil => intro acc; rfl
  | cons r t ih =>
    intro acc
    have : ((r :: t).foldl summarizeStep acc) = t.foldl summarizeStep (summarizeStep acc r) := rfl
    rw [this, ih (summarizeStep acc r), summarizeStep_map_spec]
    rfl

lemma headD_mem {α : Type} (l : List α) (d : α) (h : l ≠ []) : l.headD d ∈ l := by
  cases l with
  | nil => exact absurd rfl h
  | cons a t => exact List.mem_cons_self a t

lemma getLastD_mem {α : Type} (l : List α) (d : α) (h : l ≠ []) : l.getLastD d ∈ l := by
  cases l with
  | nil => exact absurd rfl h
  | cons a t => exact List.getLast_mem (List.cons_ne_nil a t)

lemma char_toNat_ofNat (n : Nat) (h : Nat.isValidChar n) : (Char.ofNat n).toNat = n := by
  simp only [Char.ofNat, h, dif_pos, Char.toNat, Char.ofNatAux]
  rfl

lemma jsUpperChar_toNat (c : Char) (h : 'a' ≤ c ∧ c ≤ 'z') :
    (jsUpperChar c).toNat = c.toNat - 32 := by
  unfold jsUpperChar
  rw [if_pos h]
  refine char_toNat_ofNat _ (Or.inl ?_)
  have h2 : c.toNat ≤ 122 := h.2
  omega

lemma jsUpperChar_eq_self (c : Char) (h : ¬('a' ≤ c ∧ c ≤ 'z')) : jsUpperChar c = c := by
  unfold jsUpperChar
  rw [if_neg h]

lemma jsUpperChar_idem (c : Char) : jsUpperChar (jsUpperChar c) = jsUpperChar c := by
  by_cases h : 'a' ≤ c ∧ c ≤ 'z'
  · have hn : (jsUpperChar c).toNat = c.toNat - 32 := jsUpperChar_toNat c h
    have h97 : 97 ≤ c.toNat := h.1
    have h122 : c.toNat ≤ 122 := h.2
    refine jsUpperChar_eq_self _ ?_
    intro hcon
    have : 97 ≤ (jsUpperChar c).toNat := hcon.1
    omega
  · rw [jsUpperChar_eq_self c h, jsUpperChar_eq_self c h]

lemma combining_jsUpper (c : Char) (h : combining c = false) :
    combining (jsUpperChar c) = false := by
  by_cases hl : 'a' ≤ c ∧ c ≤ 'z'
  · have hn := jsUpperChar_toNat c hl
    have h122 : c.toNat ≤ 122 := hl.2
    simp only [combining, hn, Bool.and_eq_false_imp, decide_eq_true_eq,
      decide_eq_false_iff_not]
    omega
  · rw [jsUpperChar_eq_self c hl]
    exact h

lemma charNFD_small (c : Char) (h : c.toNat < 0xC0) : charNFD c = [c] := by
  unfold charNFD
  cases hfind : nfdTable.find? (fun e => e.1 == c) with
  | none => rfl
  | some e =>
    exfalso
    have hpred := List.find?_some hfind
    have hmem := List.mem_of_find?_eq_some hfind
    have hall : ∀ ent ∈ nfdTable, 0xC0 ≤ ent.1.toNat := by decide
    have hge := hall e hmem
    rw [beq_iff_eq] at hpred
    rw [hpred] at hge
    omega

lemma charNFD_out (c d : Char) (hd : d ∈ charNFD c) (hcomb : combining d = false) :
    charNFD (jsUpperChar d) = [jsUpperChar d] := by
  revert hd
  unfold charNFD
  cases hfind : nfdTable.find? (fun e => e.1 == c) with
  | none =>
    intro hd
    have hdc : d = c := List.mem_singleton.mp hd
    subst hdc
    by_cases hl : 'a' ≤ d ∧ d ≤ 'z'
    · apply charNFD_small
      rw [jsUpperChar_toNat d hl]
      have h122 : d.toNat ≤ 122 := hl.2
      omega
    · rw [jsUpperChar_eq_self d hl, hfind]
  | some e =>
    intro hd
    have hmem := List.mem_of_find?_eq_some hfind
    have hall : ∀ ent ∈ nfdTable, ∀ d ∈ ent.2,
        combining d = true ∨ (jsUpperChar d).toNat < 0xC0 := by decide
    rcases hall e hmem d hd with h1 | h1
    · rw [h1] at hcomb
      cases hcomb
    · exact charNFD_small _ h1

lemma goodChar_spec (c : Char) (h : goodChar c = true) :
    charNFD c = [c] ∧ combining c = false ∧ jsUpperChar c = c ∧ isPunctNorm c = false := by
  simpa [goodChar, Bool.and_eq_true, beq_iff_eq, Bool.not_eq_true', and_assoc] using h

lemma stage_good (c d : Char) (hd : d ∈ charNFD c) (hcomb : combining d = false) :
    goodChar (punctToSpace (jsUpperChar d)) = true := by
  by_cases hp : isPunctNorm (jsUpperChar d) = true
  · rw [show punctToSpace (jsUpperChar d) = ' ' from by unfold punctToSpace; rw [if_pos hp]]
    decide
  · rw [show punctToSpace (jsUpperChar d) = jsUpperChar d from by
      unfold punctToSpace; rw [if_neg hp]]
    have h1 := charNFD_out c d hd hcomb
    have h2 := combining_jsUpper d hcomb
    have h3 := jsUpperChar_idem d
    simp [goodChar, h1, h2, h3, hp]

lemma collapseWS_singleton (c : Char) :
    collapseWS [c] = [if isJSWS c = true then ' ' else c] := rfl

lemma collapseWS_cons_cons (a b : Char) (rest : List Char) :
    collapseWS (a :: b :: rest) =
      if isJSWS a = true ∧ isJSWS b = true then collapseWS (b :: rest)
      else (if isJSWS a = true then ' ' else a) :: collapseWS (b :: rest) := rfl

lemma norm_pipeline_good (l : List Char) :
    ∀ e ∈ (((l.flatMap charNFD).filter (fun c => !combining c)).map jsUpperChar).map
        punctToSpace, goodChar e = true := by
  intro e he
  rcases List.mem_map.mp he with ⟨e0, he0, rfl⟩
  rcases List.mem_map.mp he0 with ⟨d, hd, rfl⟩
  have hd' := List.mem_filter.mp hd
  rcases List.mem_flatMap.mp hd'.1 with ⟨c, _, hdc⟩
  have hcomb : combining d = false := by
    have := hd'.2
    rwa [Bool.not_eq_true'] at this
  exact stage_good c d hdc hcomb

lemma collapseWS_chars :
    ∀ (l : List Char), ∀ e ∈ collapseWS l, e = ' ' ∨ (e ∈ l ∧ isJSWS e = false) := by
  intro l
  induction l with
  | nil => intro e he; cases he
  | cons a t ih =>
    cases t with
    | nil =>
      intro e he
      rcases List.mem_singleton.mp he with rfl
      by_cases hw : isJSWS a = true
      · left
        rw [if_pos hw]
      · right
        rw [if_neg hw]
        exact ⟨List.mem_singleton.mpr rfl, eq_false_of_ne_true hw⟩
    | cons b t' =>
      intro e he
      by_cases hab : isJSWS a = true ∧ isJSWS b = true
      · rw [collapseWS_cons_cons, if_pos hab] at he
        rcases ih e he with h | ⟨hm, hn⟩
        · exact Or.inl h
        · exact Or.inr ⟨List.mem_cons_of_mem a hm, hn⟩
      · rw [collapseWS_cons_cons, if_neg hab] at he
        rcases List.mem_cons.mp he with rfl | he'
        · by_cases hw : isJSWS a = true
          · left
            rw [if_pos hw]
          · right
            rw [if_neg hw]
            exact ⟨List.mem_cons_self a _, eq_false_of_ne_true hw⟩
        · rcases ih e he' with h | ⟨hm, hn⟩
          · exact Or.inl h
          · exact Or.inr ⟨List.mem_cons_of_mem a hm, hn⟩

lemma head_collapse (b : Char) (rest : List Char) (h : isJSWS b = false) :
    ∃ t', collapseWS (b :: rest) = b :: t' := by
  cases rest with
  | nil =>
    refine ⟨[], ?_⟩
    show [if isJSWS b = true then ' ' else b] = [b]
    rw [if_neg (by simp [h])]
  | cons c t =>
    refine ⟨collapseWS (c :: t), ?_⟩
    show (if isJSWS b = true ∧ isJSWS c = true then collapseWS (c :: t)
        else (if isJSWS b = true then ' ' else b) :: collapseWS (c :: t)) = _
    rw [if_neg (by simp [h]), if_neg (by simp [h])]

lemma collapse_chain (l : List Char) :
    List.Chain' (fun x y : Char => isJSWS x = false ∨ isJSWS y = false) (collapseWS l) := by
  induction l with
  | nil => exact List.chain'_nil
  | cons a t ih =>
    cases t with
    | nil => exact List.chain'_singleton _
    | cons b t' =>
      by_cases hab : isJSWS a = true ∧ isJSWS b = true
      · rw [collapseWS_cons_cons, if_pos hab]
        exact ih
      · rw [collapseWS_cons_cons, if_neg hab]
        rw [List.chain'_cons']
        refine ⟨?_, ih⟩
        intro y hy
        by_cases hwa : isJSWS a = true
        · have hwb : isJSWS b = false := by
            cases hb : isJSWS b
            · rfl
            · exact absurd ⟨hwa, hb⟩ hab
          obtain ⟨t'', ht''⟩ := head_collapse b t' hwb
          rw [ht''] at hy
          simp only [List.head?_cons, Option.mem_def, Option.some.injEq] at hy
          right
          rw [← hy]
          exact hwb
        · left
          rw [if_neg hwa]
          exact eq_false_of_ne_true hwa

lemma chain_dropWhile {α : Type} {R : α → α → Prop} (p : α → Bool) :
    ∀ {l : List α}, List.Chain' R l → List.Chain' R (l.dropWhile p) := by
  intro l
  induction l with
  | nil => intro h; exact h
  | cons a t ih =>
    intro h
    rw [List.dropWhile_cons]
    by_cases hp : p a = true
    · rw [if_pos hp]
      exact ih h.tail
    · rw [if_neg hp]
      exact h

lemma chain_trimL {l : List Char}
    (h : List.Chain' (fun x y : Char => isJSWS x = false ∨ isJSWS y = false) l) :
    List.Chain' (fun x y : Char => isJSWS x = false ∨ isJSWS y = false) (trimL l) := by
  unfold trimL
  have h1 : List.Chain' (fun x y : Char => isJSWS x = false ∨ isJSWS y = false)
      (l.dropWhile isJSWS) := chain_dropWhile _ h
  have h2 : List.Chain'
      (flip (fun x y : Char => isJSWS x = false ∨ isJSWS y = false))
      (l.dropWhile isJSWS) := List.Chain'.imp (fun a b hab => Or.symm hab) h1
  have h3 : List.Chain' (fun x y : Char => isJSWS x = false ∨ isJSWS y = false)
      (l.dropWhile isJSWS).reverse := List.chain'_reverse.mpr h2
  have h4 : List.Chain' (fun x y : Char => isJSWS x = false ∨ isJSWS y = false)
      ((l.dropWhile isJSWS).reverse.dropWhile isJSWS) := chain_dropWhile _ h3
  have h5 : List.Chain'
      (flip (fun x y : Char => isJSWS x = false ∨ isJSWS y = false))
      ((l.dropWhile isJSWS).reverse.dropWhile isJSWS) :=
    List.Chain'.imp (fun a b hab => Or.symm hab) h4
  exact List.chain'_reverse.mpr h5

lemma collapse_fixed :
    ∀ (l : List Char),
      List.Chain' (fun x y : Char => isJSWS x = false ∨ isJSWS y = false) l →
      (∀ e ∈ l, isJSWS e = true → e = ' ') →
      collapseWS l = l := by
  intro l
  induction l with
  | nil => intro _ _; rfl
  | cons a t ih =>
    intro hchain hsp
    cases t with
    | nil =>
      show [if isJSWS a = true then ' ' else a] = [a]
      by_cases hw : isJSWS a = true
      · rw [if_pos hw, hsp a (List.mem_singleton.mpr rfl) hw]
      · rw [if_neg hw]
    | cons b t' =>
      obtain ⟨hr, hct⟩ := List.chain'_cons'.mp hchain
      have hnab : ¬(isJSWS a = true ∧ isJSWS b = true) := by
        rcases hr b (by simp) with h | h
        · intro hcon
          rw [h] at hcon
          exact Bool.false_ne_true hcon.1
        · intro hcon
          rw [h] at hcon
          exact Bool.false_ne_true hcon.2
      show (if isJSWS a = true ∧ isJSWS b = true then collapseWS (b :: t')
          else (if isJSWS a = true then ' ' else a) :: collapseWS (b :: t')) = _
      rw [if_neg hnab,
        ih hct (fun e he hw => hsp e (List.mem_cons_of_mem a he) hw)]
      by_cases hw : isJSWS a = true
      · rw [if_pos hw, hsp a (List.mem_cons_self a _) hw]
      · rw [if_neg hw]

lemma head?_dropWhile_false {α : Type} (p : α → Bool) :
    ∀ (l : List α) (a : α), (l.dropWhile p).head? = some a → p a = false := by
  intro l
  induction l with
  | nil => intro a h; cases h
  | cons x t ih =>
    intro a h
    rw [List.dropWhile_cons] at h
    by_cases hp : p x = true
    · rw [if_pos hp] at h
      exact ih a h
    · rw [if_neg hp] at h
      rw [List.head?_cons, Option.some.injEq] at h
      rw [← h]
      exact eq_false_of_ne_true hp

lemma dropWhile_idem {α : Type} (p : α → Bool) (l : List α) :
    (l.dropWhile p).dropWhile p = l.dropWhile p := by
  cases hD : l.dropWhile p with
  | nil => rfl
  | cons a t =>
    have hpa : p a = false := head?_dropWhile_false p l a (by rw [hD]; rfl)
    rw [List.dropWhile_cons, if_neg (by simp [hpa])]

lemma getLast?_dropWhile {α : Type} (p : α → Bool) :
    ∀ (l : List α), l.dropWhile p ≠ [] → (l.dropWhile p).getLast? = l.getLast? := by
  intro l
  induction l with
  | nil => intro h; exact absurd rfl h
  | cons x t ih =>
    intro h
    rw [List.dropWhile_cons] at h ⊢
    by_cases hp : p x = true
    · rw [if_pos hp] at h ⊢
      rw [ih h]
      cases t with
      | nil => exact absurd rfl h
      | cons b t' => rw [List.getLast?_cons_cons]
    · rw [if_neg hp]

lemma trimL_idem (l : List Char) : trimL (trimL l) = trimL l := by
  by_cases hD : (l.dropWhile isJSWS).reverse.dropWhile isJSWS = []
  · rw [show trimL l = [] from by unfold trimL; rw [hD]; rfl]
    rfl
  · have hz : trimL l = ((l.dropWhile isJSWS).reverse.dropWhile isJSWS).reverse := rfl
    have hhead : ∀ a, (trimL l).head? = some a → isJSWS a = false := by
      intro a ha
      rw [hz, List.head?_reverse, getLast?_dropWhile isJSWS _ hD,
        List.getLast?_reverse] at ha
      exact head?_dropWhile_false isJSWS l a ha
    have hdrop1 : (trimL l).dropWhile isJSWS = trimL l := by
      cases hzl : trimL l with
      | nil => rfl
      | cons a t =>
        have := hhead a (by rw [hzl]; rfl)
        rw [List.dropWhile_cons, if_neg (by simp [this])]
    have hdrop2 : (trimL l).reverse.dropWhile isJSWS = (trimL l).reverse := by
      rw [hz, List.reverse_reverse]
      exact dropWhile_idem isJSWS _
    show (((trimL l).dropWhile isJSWS).reverse.dropWhile isJSWS).reverse = trimL l
    rw [hdrop1, hdrop2, List.reverse_reverse]

lemma trimL_subset (l : List Char) : trimL l ⊆ l := by
  intro c hc
  unfold trimL at hc
  rw [List.mem_reverse] at hc
  have h1 := (List.dropWhile_suffix isJSWS).subset hc
  rw [List.mem_reverse] at h1
  exact (List.dropWhile_suffix isJSWS).subset h1

lemma flatMap_charNFD_id (l : List Char) (h : ∀ c ∈ l, charNFD c = [c]) :
    l.flatMap charNFD = l := by
  induction l with
  | nil => rfl
  | cons a t ih =>
    rw [List.flatMap_cons, h a (List.mem_cons_self a t),
      ih (fun c hc => h c (List.mem_cons_of_mem a hc))]
    rfl

lemma map_id_of_fixed {f : Char → Char} (l : List Char) (h : ∀ c ∈ l, f c = c) :
    l.map f = l := by
  rw [List.map_congr_left (g := id) h, List.map_id]

/-- C1: a record whose normalized description contains "CONTRASTE" or
"CONTRASTADO" as a substring is classified CONTRASTADOS by `classifyRecord`,
whatever its modality and whatever the two modality-specific reference
lists contain — no modality rule is consulted. -/
theorem contrast_keyword_dominates (cl el : List String) (r : RadiologyRecord)
    (h : jsIncludes (normalize r.descripcion) "CONTRASTE" = true ∨
         jsIncludes (normalize r.descripcion) "CONTRASTADO" = true) :
    (classifyRecord cl el r).subcategory = .CONTRASTADOS := by
  have hk : (jsIncludes (normalize (jsOrElse r.descripcion "")) "CONTRASTE" ||
      jsIncludes (normalize (jsOrElse r.descripcion "")) "CONTRASTADO") = true := by
    rw [jsOrElse_empty]
    rcases h with h | h <;> simp [h]
  simp only [classifyRecord, hk, if_true]

/-- Witness for C1: a concrete US-modality record whose description
mentions contrast is classified CONTRASTADOS even with empty reference
lists. -/
theorem contrast_keyword_dominates_witness :
    (jsIncludes (normalize ("ECO doppler con contraste" : String)) "CONTRASTE" = true ∨
      jsIncludes (normalize ("ECO doppler con contraste" : String)) "CONTRASTADO" = true) ∧
    (classifyRecord [] [] { descripcion := "ECO doppler con contraste", modalidad := "US" }).subcategory
      = .CONTRASTADOS :=
  ⟨Or.inl (by decide),
   contrast_keyword_dominates [] []
     { descripcion := "ECO doppler con contraste", modalidad := "US" }
     (Or.inl (by decide))⟩

/-- Counterexample to C2 as stated: a US record whose description contains
"CONTRASTE" is classified CONTRASTADOS, not STANDARD — the contrast-keyword
rule applies regardless of modality. -/
theorem us_record_not_always_standard :
    (classifyRecord [] []
        { descripcion := "ECO CON CONTRASTE", modalidad := "US" }).subcategory
      = .CONTRASTADOS ∧
    Subcat.CONTRASTADOS ≠ Subcat.STANDARD := by
  decide

/-- C2 (amended): a record whose upper-cased, trimmed modality is "US" or
"MG" and whose normalized description contains neither "CONTRASTE" nor
"CONTRASTADO" is classified STANDARD, for every value of the reference
lists. -/
theorem us_mg_default_standard (cl el : List String) (r : RadiologyRecord)
    (hmod : jsTrim (jsToUpper r.modalidad) = "US" ∨ jsTrim (jsToUpper r.modalidad) = "MG")
    (h1 : jsIncludes (normalize r.descripcion) "CONTRASTE" = false)
    (h2 : jsIncludes (normalize r.descripcion) "CONTRASTADO" = false) :
    (classifyRecord cl el r).subcategory = .STANDARD := by
  have hk : (jsIncludes (normalize (jsOrElse r.descripcion "")) "CONTRASTE" ||
      jsIncludes (normalize (jsOrElse r.descripcion "")) "CONTRASTADO") = false := by
    rw [jsOrElse_empty]
    simp [h1, h2]
  have hct : jsTrim (jsToUpper (jsOrElse r.modalidad "")) ≠ "CT" := by
    rw [jsOrElse_empty]
    rcases hmod with h | h <;> rw [h] <;> decide
  have hcr : jsTrim (jsToUpper (jsOrElse r.modalidad "")) ≠ "CR" := by
    rw [jsOrElse_empty]
    rcases hmod with h | h <;> rw [h] <;> decide
  simp [classifyRecord, hk, hct, hcr]

/-- Witness for C2 (amended): a concrete MG record with a contrast-free
description is STANDARD. -/
theorem us_mg_default_standard_witness :
    (jsTrim (jsToUpper ("mg " : String)) = "US" ∨ jsTrim (jsToUpper ("mg " : String)) = "MG") ∧
    jsIncludes (normalize ("Mamografía bilateral" : String)) "CONTRASTE" = false ∧
    jsIncludes (normalize ("Mamografía bilateral" : String)) "CONTRASTADO" = false ∧
    (classifyRecord ["ANGIO"] ["SERIE"]
        { descripcion := "Mamografía bilateral", modalidad := "mg " }).subcategory
      = .STANDARD :=
  ⟨Or.inr (by decide), by decide, by decide,
   us_mg_default_standard ["ANGIO"] ["SERIE"]
     { descripcion := "Mamografía bilateral", modalidad := "mg " }
     (Or.inr (by decide)) (by decide) (by decide)⟩

/-- C6: the date comparator is a total function, and any pair in which a
string fails to parse as a calendar instant compares equal (result 0). -/
theorem date_cmp_unparsable_equal (a b : String)
    (h : parseDate a = none ∨ parseDate b = none) :
    dateCmp a b = 0 := by
  unfold dateCmp
  rcases h with h | h
  · rw [h]
  · rw [h]
    cases parseDate a <;> rfl

/-- Witness for C6: a garbage string compares equal to a valid ISO date. -/
theorem date_cmp_unparsable_equal_witness :
    (parseDate "no-date" = none ∨ parseDate "2024-01-10" = none) ∧
    dateCmp "no-date" "2024-01-10" = 0 :=
  ⟨Or.inl (by decide),
   date_cmp_unparsable_equal "no-date" "2024-01-10" (Or.inl (by decide))⟩

/-- C7: the date-range resolver returns the empty-string sentinel pair for
an empty collection, and the distinct "N/A" sentinel pair for a non-empty
collection all of whose date-performed fields are empty or
whitespace-only. -/
theorem date_range_sentinels (records : List RadiologyRecord) :
    (records = [] → dateRange records = { min := "", max := "" }) ∧
    (records ≠ [] → (∀ r ∈ records, jsTrim r.fecha_realizado = "") →
      dateRange records = { min := "N/A", max := "N/A" }) := by
  constructor
  · rintro rfl
    rfl
  · intro hne hall
    have hlen : ¬records.length = 0 := by
      simpa [List.length_eq_zero] using hne
    have hfilter : (records.map (fun d => d.fecha_realizado)).filter
        (fun f => !(f == "") && !(jsTrim f == "")) = [] := by
      rw [List.filter_eq_nil_iff]
      intro f hf
      rcases List.mem_map.mp hf with ⟨r, hr, rfl⟩
      simp [hall r hr]
    unfold dateRange
    rw [if_neg hlen, hfilter]
    rfl

/-- Witness for C7: the empty collection gives the empty sentinels, and a
one-record collection with a whitespace-only date gives the N/A
sentinels. -/
theorem date_range_sentinels_witness :
    dateRange [] = { min := "", max := "" } ∧
    dateRange [{ fecha_realizado := "  " }] = { min := "N/A", max := "N/A" } :=
  ⟨(date_range_sentinels []).1 rfl,
   (date_range_sentinels [{ fecha_realizado := "  " }]).2 (by simp)
     (by intro r hr; simp at hr; rw [hr]; decide)⟩

/-- Counterexample to C8 as stated: a record with the unrecognized
non-empty modality "xy" is counted under the key "XY", not under "N/A". -/
theorem unrecognized_modality_not_na :
    (getSummaryBySpecialist [{ modalidad := "xy" }]).map
        (fun s => s.modalities) = [[("XY", 1)]] ∧
    ("XY" : String) ≠ "N/A" := by
  constructor
  · rw [getSummary_singleton]
    decide
  · decide

/-- C8 (amended): the modality-count key for a record is its upper-cased,
trimmed modality whenever the modality field is non-empty (so an
unrecognized value keeps its upper-trimmed form, and a whitespace-only
value yields the empty-string key), and the fixed key "N/A" exactly when
the field is empty; a singleton input's summary counts 1 under that key. -/
theorem modality_key_shape (r : RadiologyRecord) :
    modalityKey r = (if r.modalidad = "" then "N/A" else jsToUpper (jsTrim r.modalidad)) ∧
    (getSummaryBySpecialist [r]).map (fun s => s.modalities) = [[(modalityKey r, 1)]] := by
  constructor
  · unfold modalityKey jsOrElse
    by_cases h : r.modalidad = ""
    · rw [h]
      decide
    · simp [h]
  · rw [getSummary_singleton]
    simp

/-- C10: a whitespace-only (non-empty) specialist-name field is grouped
under the empty-string bucket key — the missing-name fallback fires before
trimming — while a genuinely empty field reaches the "SIN ASIGNAR"
sentinel bucket. -/
theorem whitespace_specialist_empty_bucket (r : RadiologyRecord) :
    (r.realizado_por ≠ "" → (∀ c ∈ r.realizado_por.data, isJSWS c = true) →
      specKey r = "" ∧
      (getSummaryBySpecialist [r]).map (fun s => s.specialist) = [""]) ∧
    (r.realizado_por = "" →
      specKey r = "SIN ASIGNAR" ∧
      (getSummaryBySpecialist [r]).map (fun s => s.specialist) = ["SIN ASIGNAR"]) := by
  constructor
  · intro hne hws
    have hkey : specKey r = "" := by
      unfold specKey jsOrElse
      rw [if_neg hne]
      unfold jsTrim trimL
      rw [List.dropWhile_eq_nil_iff.mpr (fun c hc => hws c hc)]
      rfl
    refine ⟨hkey, ?_⟩
    rw [getSummary_singleton, hkey]
    rfl
  · intro he
    have hkey : specKey r = "SIN ASIGNAR" := by
      unfold specKey jsOrElse
      rw [if_pos he]
      decide
    refine ⟨hkey, ?_⟩
    rw [getSummary_singleton, hkey]
    rfl

/-- Witness for C10: a record whose specialist name is three spaces lands
in the empty-string bucket; one with the empty name lands in the
"SIN ASIGNAR" bucket. -/
theorem whitespace_specialist_empty_bucket_witness :
    (getSummaryBySpecialist [{ realizado_por := "   " }]).map
        (fun s => s.specialist) = [""] ∧
    (getSummaryBySpecialist [{ realizado_por := "" }]).map
        (fun s => s.specialist) = ["SIN ASIGNAR"] :=
  ⟨((whitespace_specialist_empty_bucket { realizado_por := "   " }).1
      (by decide) (by decide)).2,
   ((whitespace_specialist_empty_bucket { realizado_por := "" }).2 rfl).2⟩

/-- C3: every summary returned by `getSummaryBySpecialist` carries all
three subcategory keys, in their fixed order, and the three counts sum
exactly to that summary's `totalStudies`. -/
theorem subcategory_counts_sum (data : List RadiologyRecord)
    (s : SummaryBySpecialist) (hs : s ∈ getSummaryBySpecialist data) :
    s.subcategories.map Prod.fst = ["CONTRASTADOS", "ESPECIALES", "STANDARD"] ∧
    (s.subcategories.map Prod.snd).sum = s.totalStudies := by
  have hmem : s ∈ specGroups data :=
    (objectValues_perm (specGroups data)).mem_iff.mp
      ((sortCmp_perm cmpTotal (objectValues (specGroups data))).mem_iff.mp hs)
  obtain ⟨a, b, c, hval, hsum⟩ :=
    foldl_summarize_shape data [] (by intro s h; cases h) s hmem
  rw [hval]
  refine ⟨rfl, ?_⟩
  simp only [List.map, List.sum_cons, List.sum_nil]
  omega

/-- Witness for C3: the summary of a single default record is a member of
the output, carries the three keys, and its counts sum to 1. -/
theorem subcategory_counts_sum_witness :
    ({ specialist := "SIN ASIGNAR", totalStudies := 1, modalities := [("N/A", 1)],
       subcategories := [("CONTRASTADOS", 0), ("ESPECIALES", 0), ("STANDARD", 1)] } :
        SummaryBySpecialist) ∈ getSummaryBySpecialist [{}] ∧
    (({ specialist := "SIN ASIGNAR", totalStudies := 1, modalities := [("N/A", 1)],
        subcategories := [("CONTRASTADOS", 0), ("ESPECIALES", 0), ("STANDARD", 1)] } :
        SummaryBySpecialist).subcategories.map Prod.fst
      = ["CONTRASTADOS", "ESPECIALES", "STANDARD"] ∧
     (({ specialist := "SIN ASIGNAR", totalStudies := 1, modalities := [("N/A", 1)],
         subcategories := [("CONTRASTADOS", 0), ("ESPECIALES", 0), ("STANDARD", 1)] } :
         SummaryBySpecialist).subcategories.map Prod.snd).sum
      = ({ specialist := "SIN ASIGNAR", totalStudies := 1, modalities := [("N/A", 1)],
           subcategories := [("CONTRASTADOS", 0), ("ESPECIALES", 0), ("STANDARD", 1)] } :
          SummaryBySpecialist).totalStudies) :=
  ⟨by decide, subcategory_counts_sum [{}] _ (by decide)⟩

/-- Counterexample to C4 as stated: with specialists "B" then "7", one
study each, `Object.values` enumerates the array-index-like key "7" first,
the stable sort keeps the tie, and the output order ["7", "B"] differs
from the first-seen order ["B", "7"]. -/
theorem numeric_specialist_breaks_first_seen :
    (getSummaryBySpecialist
        [{ realizado_por := "B" }, { realizado_por := "7" }]).map
      (fun s => s.specialist) = ["7", "B"] ∧
    (∀ s ∈ getSummaryBySpecialist
        [{ realizado_por := "B" }, { realizado_por := "7" }], s.totalStudies = 1) ∧
    firstSeenSpecs [{ realizado_por := "B" }, { realizado_por := "7" }] = ["B", "7"] ∧
    (["7", "B"] : List String) ≠ ["B", "7"] := by
  decide

/-- C4 (amended): the aggregator output is sorted descending by
`totalStudies`, and summaries with equal totals appear in the order
`Object.values` enumerates the buckets — array-index-like specialist keys
first in ascending numeric order, then the remaining keys in first-seen
order (the filter at any total is unchanged by the stable sort, the
groups are built in first-seen order, and whenever no bucket key is
array-index-like the enumeration is exactly first-seen order); the
concrete A(2)/B(5)/C(5) scenario yields the order B, C, A. -/
theorem summaries_sorted_tie_order :
    (∀ data : List RadiologyRecord,
      (getSummaryBySpecialist data).Pairwise
          (fun a b => b.totalStudies ≤ a.totalStudies) ∧
      (∀ t : Nat,
        (getSummaryBySpecialist data).filter (fun s => s.totalStudies == t) =
          (objectValues (specGroups data)).filter (fun s => s.totalStudies == t)) ∧
      (specGroups data).map (fun s => s.specialist) = firstSeenSpecs data ∧
      ((∀ s ∈ specGroups data, isArrayIndex s.specialist = false) →
        objectValues (specGroups data) = specGroups data)) ∧
    (getSummaryBySpecialist abcExample).map (fun s => s.specialist) = ["B", "C", "A"] := by
  constructor
  · intro data
    obtain ⟨hp, hf⟩ := sortCmp_aux (objectValues (specGroups data)) [] List.Pairwise.nil
    refine ⟨hp, fun t => by simpa using hf t, ?_, ?_⟩
    · simpa [specGroups, firstSeenSpecs] using groups_map_spec data []
    · exact objectValues_id_of_no_index (specGroups data)
  · decide

/-- Witness for C4 (amended): in the A/B/C scenario no specialist name is
an array-index-like key, so the bucket enumeration is first-seen order. -/
theorem summaries_sorted_tie_order_witness :
    (∀ s ∈ specGroups abcExample, isArrayIndex s.specialist = false) ∧
    objectValues (specGroups abcExample) = specGroups abcExample :=
  ⟨by decide,
   (summaries_sorted_tie_order.1 abcExample).2.2.2 (by decide)⟩

/-- C5: on the concrete scenario the date-range resolver returns
min = "2024-01-10" and max = "15/03/2024", and in general both returned
bounds are literal date strings drawn from the input records, not
reformatted values. -/
theorem date_range_literal_bounds :
    (∀ records : List RadiologyRecord,
      ((records.map (fun d => d.fecha_realizado)).filter
          (fun f => !(f == "") && !(jsTrim f == ""))) ≠ [] →
      (dateRange records).min ∈ records.map (fun d => d.fecha_realizado) ∧
      (dateRange records).max ∈ records.map (fun d => d.fecha_realizado)) ∧
    dateRange dateExample = { min := "2024-01-10", max := "15/03/2024" } := by
  constructor
  · intro records hne
    have hrecne : ¬records.length = 0 := by
      intro h0
      rw [List.length_eq_zero] at h0
      subst h0
      exact hne rfl
    have hvlen : ¬((records.map (fun d => d.fecha_realizado)).filter
        (fun f => !(f == "") && !(jsTrim f == ""))).length = 0 := by
      simpa [List.length_eq_zero] using hne
    have hdr : dateRange records =
        { min := (sortCmp dateCmp ((records.map (fun d => d.fecha_realizado)).filter
            (fun f => !(f == "") && !(jsTrim f == "")))).headD "",
          max := (sortCmp dateCmp ((records.map (fun d => d.fecha_realizado)).filter
            (fun f => !(f == "") && !(jsTrim f == "")))).getLastD "" } := by
      unfold dateRange
      rw [if_neg hrecne]
      dsimp only
      rw [if_neg hvlen]
    have hsortne : sortCmp dateCmp ((records.map (fun d => d.fecha_realizado)).filter
        (fun f => !(f == "") && !(jsTrim f == ""))) ≠ [] := by
      intro h0
      have := (sortCmp_perm dateCmp ((records.map (fun d => d.fecha_realizado)).filter
        (fun f => !(f == "") && !(jsTrim f == "")))).length_eq
      rw [h0] at this
      exact hvlen this.symm
    rw [hdr]
    constructor
    · have hmem := (sortCmp_perm dateCmp _).subset (headD_mem _ "" hsortne)
      exact (List.mem_filter.mp hmem).1
    · have hmem := (sortCmp_perm dateCmp _).subset (getLastD_mem _ "" hsortne)
      exact (List.mem_filter.mp hmem).1
  · decide

/-- Witness for C5: the concrete scenario's filtered date list is
non-empty and both returned bounds are members of the input's date
column. -/
theorem date_range_literal_bounds_witness :
    ((dateExample.map (fun d => d.fecha_realizado)).filter
        (fun f => !(f == "") && !(jsTrim f == ""))) ≠ [] ∧
    (dateRange dateExample).min ∈ dateExample.map (fun d => d.fecha_realizado) ∧
    (dateRange dateExample).max ∈ dateExample.map (fun d => d.fecha_realizado) :=
  ⟨by decide,
   (date_range_literal_bounds.1 dateExample (by decide)).1,
   (date_range_literal_bounds.1 dateExample (by decide)).2⟩

/-- C9: `normalize` is idempotent — normalizing an already-normalized
string returns it unchanged, for every input string. -/
theorem normalize_idempotent (s : String) :
    normalize (normalize s) = normalize s := by
  have hmain : ∀ l : List Char,
      trimL (collapseWS (((((trimL (collapseWS ((((l.flatMap charNFD).filter
          (fun c => !combining c)).map jsUpperChar).map punctToSpace))).flatMap
          charNFD).filter (fun c => !combining c)).map jsUpperChar).map punctToSpace))
        = trimL (collapseWS ((((l.flatMap charNFD).filter
          (fun c => !combining c)).map jsUpperChar).map punctToSpace)) := by
    intro l
    generalize hP : (((l.flatMap charNFD).filter
      (fun c => !combining c)).map jsUpperChar).map punctToSpace = P
    have hPgood : ∀ e ∈ P, goodChar e = true := by
      rw [← hP]
      exact norm_pipeline_good l
    set y := trimL (collapseWS P) with hy
    have hgood : ∀ e ∈ y, goodChar e = true := by
      intro e he
      rcases collapseWS_chars P e (trimL_subset _ he) with rfl | ⟨hm, _⟩
      · decide
      · exact hPgood e hm
    have hws : ∀ e ∈ y, isJSWS e = true → e = ' ' := by
      intro e he hw
      rcases collapseWS_chars P e (trimL_subset _ he) with rfl | ⟨_, hn⟩
      · rfl
      · rw [hw] at hn
        cases hn
    have hchain := chain_trimL (collapse_chain P)
    have h1 : y.flatMap charNFD = y :=
      flatMap_charNFD_id y (fun c hc => (goodChar_spec c (hgood c hc)).1)
    have h2 : y.filter (fun c => !combining c) = y :=
      List.filter_eq_self.mpr (fun c hc => by simp [(goodChar_spec c (hgood c hc)).2.1])
    have h3 : y.map jsUpperChar = y :=
      map_id_of_fixed y (fun c hc => (goodChar_spec c (hgood c hc)).2.2.1)
    have h4 : y.map punctToSpace = y :=
      map_id_of_fixed y (fun c hc => by
        unfold punctToSpace
        rw [if_neg (by simp [(goodChar_spec c (hgood c hc)).2.2.2])])
    rw [h1, h2, h3, h4, collapse_fixed y hchain hws, hy, trimL_idem]
  exact congrArg String.mk (hmain s.data)

end MedStats
